import Mathlib

/-!
Shallow embedding of the `bitset` Go package (three bitset implementations:
`Words`, `Bytes`, `Sparse`) and verification of its specification.

Modelling conventions:

* The embedding targets a 64-bit platform, so `uintptr` is 64 bits wide and
  `^uintptr(0) >> 63 = 1`; the constants below are computed by the very same
  formulas the source uses.
* Machine words (`uintptr`) and bytes are modelled as `Nat`.  The operations
  only combine stored values with `|||` (Go `|`) and with `&&&` against a
  width-limited mask (Go `&^`), so values produced from the zero-initialised
  constructors always stay below `2 ^ 64` (resp. `2 ^ 8`) and no extra
  modular reduction is needed.  Go's unary complement `^m` on a `w`-bit
  unsigned integer is `(2 ^ w - 1) ^^^ m`, hence Go's `x &^ m` is embedded as
  `x &&& ((2 ^ w - 1) ^^^ m)`.
* Bit indexes are Go `int` values; the code converts them with `uint(i)`
  before shifting/masking, and negative indexes always produce an enormous
  word index that faults.  The claims quantify over addressable (hence
  non-negative) indexes, so indexes are modelled as `Nat`.
* Go slice indexing out of range panics.  A panicking operation is embedded
  as an `Option` result, `none` meaning the panic; `List.set` is guarded by
  an explicit bounds check for this reason (the unguarded Lean `List.set` is
  silently a no-op out of range, which would not be faithful).
* A Go map is embedded as the partial function `Nat → Option Nat` it
  denotes: lookup is application, `m[k]` in rvalue position is
  `(s k).getD 0` (the zero value for a missing key), assignment and
  `delete` are pointwise updates.
-/

namespace Bitset

/-- Number of bits per machine word, `32 << uint(^uintptr(0)>>63)`; on the
64-bit platform modelled here `^uintptr(0)` is `2 ^ 64 - 1` and the result
is 64. -/
def wordBits : Nat := 32 <<< ((2 ^ 64 - 1) >>> 63)

/-- Mask for the intra-word bit offset, `wordBits - 1`. -/
def wordModMask : Nat := wordBits - 1

/-- Right-shift distance turning a bit index into a word index,
`(1<<7 + wordBits) >> 5`. -/
def wordShift : Nat := (1 <<< 7 + wordBits) >>> 5

/-- Mask for the intra-byte bit offset. -/
def byteModMask : Nat := 7

/-- Right-shift distance turning a bit index into a byte index. -/
def byteShift : Nat := 3

/-- All-ones value of a `uintptr`, i.e. Go's `^uintptr(0)` on the 64-bit
platform; used to embed the `&^` (and-not) operator on words. -/
def uintptrMask : Nat := 2 ^ 64 - 1

/-- All-ones value of a `byte`; used to embed `&^` on bytes. -/
def byteMask : Nat := 2 ^ 8 - 1

/-- Go type `Words []uintptr`: a dense bitset backed by a word slice. -/
abbrev Words := List Nat

/-- Go `func NewWords(numBits int) Words`:
`make(Words, (numBits+wordModMask)>>wordShift)`, a zeroed slice. -/
def NewWords (numBits : Nat) : Words :=
  List.replicate ((numBits + wordModMask) >>> wordShift) 0

/-- Go `func (w Words) Get(i int) bool`:
`w[uint(i)>>wordShift]&(1<<(uint(i)&wordModMask)) != 0`; `none` models the
index panic when the word index is out of range. -/
def Words.Get (w : Words) (i : Nat) : Option Bool :=
  match w[i >>> wordShift]? with
  | some x => some (x &&& (1 <<< (i &&& wordModMask)) != 0)
  | none => none

/-- Go `func (w Words) Set(i int)`:
`w[uint(i)>>wordShift] |= 1 << (uint(i) & wordModMask)`; the updated slice is
returned explicitly, `none` models the index panic. -/
def Words.Set (w : Words) (i : Nat) : Option Words :=
  match w[i >>> wordShift]? with
  | some x => some (w.set (i >>> wordShift) (x ||| 1 <<< (i &&& wordModMask)))
  | none => none

/-- Go `func (w Words) Unset(i int)`:
`w[uint(i)>>wordShift] &^= 1 << (uint(i) & wordModMask)`; `&^` is and-not on
a 64-bit word. -/
def Words.Unset (w : Words) (i : Nat) : Option Words :=
  match w[i >>> wordShift]? with
  | some x =>
      some (w.set (i >>> wordShift) (x &&& (uintptrMask ^^^ 1 <<< (i &&& wordModMask))))
  | none => none

/-- Go `func (w Words) SetBool(i int, b bool)`: dispatches to `Set`/`Unset`. -/
def Words.SetBool (w : Words) (i : Nat) (b : Bool) : Option Words :=
  if b then Words.Set w i else Words.Unset w i

/-- Go `func (w *Words) Grow(numBits int)` (the `int` variant):
`targetLen := (numBits+wordModMask)>>wordShift; missing := targetLen - len(words);
if missing > 0 && missing <= targetLen { *w = append(words, make(Words, missing)...) }`.
The subtraction is Go `int` subtraction, embedded in `Int`. -/
def Words.Grow (w : Words) (numBits : Nat) : Words :=
  let targetLen : Int := ((numBits + wordModMask) >>> wordShift : Nat)
  let missing : Int := targetLen - w.length
  if 0 < missing ∧ missing ≤ targetLen then
    w ++ List.replicate missing.toNat 0
  else w

/-- Go `func (w *Words) Grow(numBits uint)` (the `uint` variant):
`targetLen := (numBits+wordModMask)>>wordShift;
if missing := targetLen - uint(len(words)); missing != 0 {
*w = append(words, make(Words, missing)...) }`.
The subtraction wraps modulo `2 ^ 64` (Go `uint` arithmetic).  Go's
`make(Words, missing)` panics when `missing` does not fit in a non-negative
`int`, i.e. when `missing ≥ 2 ^ 63`; that panic is modelled as `none`.
(Lengths that fit an `int` but exhaust memory also fail at run time; such
resource limits are not modelled.) -/
def Words.GrowU (w : Words) (numBits : Nat) : Option Words :=
  let targetLen := ((numBits + wordModMask) % 2 ^ 64) >>> wordShift
  let missing := (targetLen + 2 ^ 64 - w.length % 2 ^ 64) % 2 ^ 64
  if missing = 0 then some w
  else if missing < 2 ^ 63 then some (w ++ List.replicate missing 0)
  else none

/-- Go type `Bytes []byte`: a dense bitset backed by a byte slice. -/
abbrev Bytes := List Nat

/-- Go `func NewBytes(numBits int) Bytes`:
`make(Bytes, (numBits+byteModMask)>>byteShift)`, a zeroed slice. -/
def NewBytes (numBits : Nat) : Bytes :=
  List.replicate ((numBits + byteModMask) >>> byteShift) 0

/-- Go `func (s Bytes) Get(i int) bool`:
`s[uint(i)>>byteShift]&(1<<(uint(i)&byteModMask)) != 0`. -/
def Bytes.Get (s : Bytes) (i : Nat) : Option Bool :=
  match s[i >>> byteShift]? with
  | some x => some (x &&& (1 <<< (i &&& byteModMask)) != 0)
  | none => none

/-- Go `func (s Bytes) Set(i int)`:
`s[uint(i)>>byteShift] |= 1 << (uint(i) & byteModMask)`. -/
def Bytes.Set (s : Bytes) (i : Nat) : Option Bytes :=
  match s[i >>> byteShift]? with
  | some x => some (s.set (i >>> byteShift) (x ||| 1 <<< (i &&& byteModMask)))
  | none => none

/-- Go `func (s Bytes) Unset(i int)`:
`s[uint(i)>>byteShift] &^= 1 << (uint(i) & byteModMask)`; `&^` is and-not on
an 8-bit byte. -/
def Bytes.Unset (s : Bytes) (i : Nat) : Option Bytes :=
  match s[i >>> byteShift]? with
  | some x =>
      some (s.set (i >>> byteShift) (x &&& (byteMask ^^^ 1 <<< (i &&& byteModMask))))
  | none => none

/-- Go `func (s Bytes) SetBool(i int, b bool)`: dispatches to `Set`/`Unset`. -/
def Bytes.SetBool (s : Bytes) (i : Nat) (b : Bool) : Option Bytes :=
  if b then Bytes.Set s i else Bytes.Unset s i

/-- Go `func (s *Bytes) Grow(numBits int)` (the `int` variant), same shape as
`Words.Grow` with the byte constants. -/
def Bytes.Grow (s : Bytes) (numBits : Nat) : Bytes :=
  let targetLen : Int := ((numBits + byteModMask) >>> byteShift : Nat)
  let missing : Int := targetLen - s.length
  if 0 < missing ∧ missing ≤ targetLen then
    s ++ List.replicate missing.toNat 0
  else s

/-- Go type `Sparse map[int]uintptr`, embedded as the partial function the
map denotes: `none` means the key is absent. -/
abbrev Sparse := Nat → Option Nat

/-- A freshly made empty Sparse map, `make(Sparse)`. -/
def Sparse.empty : Sparse := fun _ => none

/-- Go `func (s Sparse) Get(i int) bool`:
`s[int(uint(i)>>wordShift)]&(1<<(uint(i)&wordModMask)) != 0`; a missing key
reads as the zero value. -/
def Sparse.Get (s : Sparse) (i : Nat) : Bool :=
  (s (i >>> wordShift)).getD 0 &&& (1 <<< (i &&& wordModMask)) != 0

/-- Go `func (s Sparse) Set(i int)`:
`s[int(uint(i)>>wordShift)] |= 1 << (uint(i) & wordModMask)`; reads the zero
value for a missing key and stores the updated word. -/
def Sparse.Set (s : Sparse) (i : Nat) : Sparse :=
  fun k =>
    if k = i >>> wordShift then
      some ((s (i >>> wordShift)).getD 0 ||| 1 <<< (i &&& wordModMask))
    else s k

/-- Go `func (s Sparse) Unset(i int)`: if the word's key is absent, no-op;
otherwise and-out the bit, deleting the entry when the word becomes zero and
storing it back otherwise. -/
def Sparse.Unset (s : Sparse) (i : Nat) : Sparse :=
  match s (i >>> wordShift) with
  | none => s
  | some word =>
      let word2 := word &&& (uintptrMask ^^^ 1 <<< (i &&& wordModMask))
      if word2 = 0 then fun k => if k = i >>> wordShift then none else s k
      else fun k => if k = i >>> wordShift then some word2 else s k

/-- Go `func (s Sparse) SetBool(i int, b bool)`: dispatches to `Set`/`Unset`. -/
def Sparse.SetBool (s : Sparse) (i : Nat) (b : Bool) : Sparse :=
  if b then Sparse.Set s i else Sparse.Unset s i

theorem wordBits_eq : wordBits = 64 := by decide

theorem wordShift_eq : wordShift = 6 := by decide

theorem wordModMask_eq : wordModMask = 63 := by decide

theorem wshift_eq (i : Nat) : i >>> wordShift = i / 64 := by
  rw [wordShift_eq, Nat.shiftRight_eq_div_pow]

theorem wmask_eq (i : Nat) : i &&& wordModMask = i % 64 := by
  rw [wordModMask_eq, show (63 : Nat) = 2 ^ 6 - 1 from rfl,
    Nat.and_pow_two_sub_one_eq_mod]

theorem bshift_eq (i : Nat) : i >>> byteShift = i / 8 := by
  rw [byteShift, Nat.shiftRight_eq_div_pow]

theorem bmask_eq (i : Nat) : i &&& byteModMask = i % 8 := by
  rw [byteModMask, show (7 : Nat) = 2 ^ 3 - 1 from rfl,
    Nat.and_pow_two_sub_one_eq_mod]

theorem wmask_lt (i : Nat) : i &&& wordModMask < 64 := by
  rw [wmask_eq]
  exact Nat.mod_lt _ (by norm_num)

theorem bmask_lt (i : Nat) : i &&& byteModMask < 8 := by
  rw [bmask_eq]
  exact Nat.mod_lt _ (by norm_num)

/-- The boolean bit test the source performs is `Nat.testBit`. -/
theorem and_shift_ne (x k : Nat) : (x &&& (1 <<< k) != 0) = x.testBit k := by
  rw [Nat.one_shiftLeft, Nat.and_two_pow]
  cases h : x.testBit k <;> simp [h, (Nat.two_pow_pos k).ne']

theorem words_get_eq (w : Words) (i : Nat) :
    Words.Get w i =
      (w[i >>> wordShift]?).map (fun x => x.testBit (i &&& wordModMask)) := by
  unfold Words.Get
  cases h : w[i >>> wordShift]? <;> simp [h, and_shift_ne]

theorem bytes_get_eq (s : Bytes) (i : Nat) :
    Bytes.Get s i =
      (s[i >>> byteShift]?).map (fun x => x.testBit (i &&& byteModMask)) := by
  unfold Bytes.Get
  cases h : s[i >>> byteShift]? <;> simp [h, and_shift_ne]

theorem sparse_get_eq (s : Sparse) (i : Nat) :
    Sparse.Get s i = ((s (i >>> wordShift)).getD 0).testBit (i &&& wordModMask) := by
  unfold Sparse.Get
  rw [and_shift_ne]

theorem words_set_some (w : Words) (i : Nat) (h : i >>> wordShift < w.length) :
    Words.Set w i =
      some (w.set (i >>> wordShift) (w[i >>> wordShift] ||| 1 <<< (i &&& wordModMask))) := by
  unfold Words.Set
  rw [List.getElem?_eq_getElem h]

theorem words_unset_some (w : Words) (i : Nat) (h : i >>> wordShift < w.length) :
    Words.Unset w i =
      some (w.set (i >>> wordShift)
        (w[i >>> wordShift] &&& (uintptrMask ^^^ 1 <<< (i &&& wordModMask)))) := by
  unfold Words.Unset
  rw [List.getElem?_eq_getElem h]

theorem bytes_set_some (s : Bytes) (i : Nat) (h : i >>> byteShift < s.length) :
    Bytes.Set s i =
      some (s.set (i >>> byteShift) (s[i >>> byteShift] ||| 1 <<< (i &&& byteModMask))) := by
  unfold Bytes.Set
  rw [List.getElem?_eq_getElem h]

theorem bytes_unset_some (s : Bytes) (i : Nat) (h : i >>> byteShift < s.length) :
    Bytes.Unset s i =
      some (s.set (i >>> byteShift)
        (s[i >>> byteShift] &&& (byteMask ^^^ 1 <<< (i &&& byteModMask)))) := by
  unfold Bytes.Unset
  rw [List.getElem?_eq_getElem h]

/-- Setting the bit makes its own test true. -/
theorem testBit_or_shift_self (x k : Nat) : (x ||| 1 <<< k).testBit k = true := by
  simp [Nat.one_shiftLeft, Nat.testBit_or, Nat.testBit_two_pow_self]

/-- And-masking out the bit makes its own test false; `hk` bounds the offset
by the word width `n`. -/
theorem testBit_andnot_self (x k n : Nat) (hk : k < n) :
    (x &&& ((2 ^ n - 1) ^^^ 1 <<< k)).testBit k = false := by
  simp [Nat.one_shiftLeft, Nat.testBit_and, Nat.testBit_xor,
    Nat.testBit_two_pow_sub_one, Nat.testBit_two_pow_self, hk]

/-- Setting a bit leaves tests at other offsets unchanged. -/
theorem testBit_or_shift_other (x k j : Nat) (h : j ≠ k) :
    (x ||| 1 <<< k).testBit j = x.testBit j := by
  simp [Nat.one_shiftLeft, Nat.testBit_or, Nat.testBit_two_pow_of_ne (Ne.symm h)]

/-- Clearing a bit leaves tests at other in-width offsets unchanged. -/
theorem testBit_andnot_other (x k j n : Nat) (h : j ≠ k) (hj : j < n) :
    (x &&& ((2 ^ n - 1) ^^^ 1 <<< k)).testBit j = x.testBit j := by
  simp [Nat.one_shiftLeft, Nat.testBit_and, Nat.testBit_xor,
    Nat.testBit_two_pow_sub_one, Nat.testBit_two_pow_of_ne (Ne.symm h), hj]

theorem testBit_andnot_self_w (x k : Nat) (hk : k < 64) :
    (x &&& (uintptrMask ^^^ 1 <<< k)).testBit k = false :=
  testBit_andnot_self x k 64 hk

theorem testBit_andnot_other_w (x k j : Nat) (h : j ≠ k) (hj : j < 64) :
    (x &&& (uintptrMask ^^^ 1 <<< k)).testBit j = x.testBit j :=
  testBit_andnot_other x k j 64 h hj

theorem testBit_andnot_self_b (x k : Nat) (hk : k < 8) :
    (x &&& (byteMask ^^^ 1 <<< k)).testBit k = false :=
  testBit_andnot_self x k 8 hk

theorem testBit_andnot_other_b (x k j : Nat) (h : j ≠ k) (hj : j < 8) :
    (x &&& (byteMask ^^^ 1 <<< k)).testBit j = x.testBit j :=
  testBit_andnot_other x k j 8 h hj

/-- After `Unset i` on any `Sparse` set, `Get i` reads false, whichever
branch (absent key, deleted entry, stored word) was taken. -/
theorem sparse_get_unset_self (s : Sparse) (i : Nat) :
    Sparse.Get (Sparse.Unset s i) i = false := by
  rw [sparse_get_eq]
  unfold Sparse.Unset
  cases hs : s (i >>> wordShift) with
  | none => simp [hs]
  | some word =>
      by_cases h2 : word &&& (uintptrMask ^^^ 1 <<< (i &&& wordModMask)) = 0
      · simp [hs, h2]
      · simp [hs, h2, testBit_andnot_self_w _ _ (wmask_lt i)]

/-- After `Set i` on any `Sparse` set, `Get i` reads true. -/
theorem sparse_get_set_self (s : Sparse) (i : Nat) :
    Sparse.Get (Sparse.Set s i) i = true := by
  rw [sparse_get_eq]
  simp [Sparse.Set, testBit_or_shift_self]

/-- C7: for every capacity `n` and every index `i < n`, a freshly constructed
dense set (`NewWords n` or `NewBytes n`) returns `Get i = false`, and the
freshly constructed empty `Sparse` set returns `Get i = false` for every
index `i`. -/
theorem spec_C7_fresh_sets_all_unset (n i : Nat) (h : i < n) :
    Words.Get (NewWords n) i = some false ∧
    Bytes.Get (NewBytes n) i = some false ∧
    Sparse.Get Sparse.empty i = false := by
  refine ⟨?_, ?_, ?_⟩
  · rw [words_get_eq, wshift_eq]
    have hw : i / 64 < (n + wordModMask) >>> wordShift := by
      rw [wshift_eq, wordModMask_eq]; omega
    unfold NewWords
    rw [List.getElem?_replicate_of_lt hw]
    simp
  · rw [bytes_get_eq, bshift_eq]
    have hb : i / 8 < (n + byteModMask) >>> byteShift := by
      rw [bshift_eq, byteModMask]; omega
    unfold NewBytes
    rw [List.getElem?_replicate_of_lt hb]
    simp
  · rw [sparse_get_eq]
    simp [Sparse.empty]

/-- C7 witness at `n = 70`, `i = 65`. -/
theorem spec_C7_fresh_sets_all_unset_witness :
    Words.Get (NewWords 70) 65 = some false ∧
    Bytes.Get (NewBytes 70) 65 = some false ∧
    Sparse.Get Sparse.empty 65 = false :=
  spec_C7_fresh_sets_all_unset 70 65 (by decide)

/-- C5: on each variant, for an addressable index `i`, `Get i` returns true
right after `Set i`, and returns false after a subsequent `Unset i`. -/
theorem spec_C5_set_get_roundtrip (w : Words) (s : Bytes) (sp : Sparse) (i : Nat)
    (hw : i >>> wordShift < w.length) (hb : i >>> byteShift < s.length) :
    ((Words.Set w i).bind (fun w2 => Words.Get w2 i) = some true ∧
      (Words.Set w i).bind (fun w2 => (Words.Unset w2 i).bind fun w3 => Words.Get w3 i) =
        some false) ∧
    ((Bytes.Set s i).bind (fun s2 => Bytes.Get s2 i) = some true ∧
      (Bytes.Set s i).bind (fun s2 => (Bytes.Unset s2 i).bind fun s3 => Bytes.Get s3 i) =
        some false) ∧
    (Sparse.Get (Sparse.Set sp i) i = true ∧
      Sparse.Get (Sparse.Unset (Sparse.Set sp i) i) i = false) := by
  refine ⟨⟨?_, ?_⟩, ⟨?_, ?_⟩, ?_, ?_⟩
  · rw [words_set_some w i hw, Option.some_bind, words_get_eq,
      List.getElem?_set_self hw]
    simp [testBit_or_shift_self]
  · have hw2 : i >>> wordShift <
        (w.set (i >>> wordShift) (w[i >>> wordShift] ||| 1 <<< (i &&& wordModMask))).length := by
      simpa using hw
    rw [words_set_some w i hw, Option.some_bind, words_unset_some _ i hw2,
      Option.some_bind, words_get_eq]
    rw [List.getElem_set_self hw2, List.set_set, List.getElem?_set_self hw]
    simp [testBit_andnot_self_w _ _ (wmask_lt i)]
  · rw [bytes_set_some s i hb, Option.some_bind, bytes_get_eq,
      List.getElem?_set_self hb]
    simp [testBit_or_shift_self]
  · have hb2 : i >>> byteShift <
        (s.set (i >>> byteShift) (s[i >>> byteShift] ||| 1 <<< (i &&& byteModMask))).length := by
      simpa using hb
    rw [bytes_set_some s i hb, Option.some_bind, bytes_unset_some _ i hb2,
      Option.some_bind, bytes_get_eq]
    rw [List.getElem_set_self hb2, List.set_set, List.getElem?_set_self hb]
    simp [testBit_andnot_self_b _ _ (bmask_lt i)]
  · exact sparse_get_set_self sp i
  · exact sparse_get_unset_self (Sparse.Set sp i) i

/-- C5 witness at `w = [0]`, `s = [0, 0]`, `sp` empty, `i = 9`. -/
theorem spec_C5_set_get_roundtrip_witness :
    ((Words.Set [0] 9).bind (fun w2 => Words.Get w2 9) = some true ∧
      (Words.Set [0] 9).bind (fun w2 => (Words.Unset w2 9).bind fun w3 => Words.Get w3 9) =
        some false) ∧
    ((Bytes.Set [0, 0] 9).bind (fun s2 => Bytes.Get s2 9) = some true ∧
      (Bytes.Set [0, 0] 9).bind (fun s2 => (Bytes.Unset s2 9).bind fun s3 => Bytes.Get s3 9) =
        some false) ∧
    (Sparse.Get (Sparse.Set Sparse.empty 9) 9 = true ∧
      Sparse.Get (Sparse.Unset (Sparse.Set Sparse.empty 9) 9) 9 = false) :=
  spec_C5_set_get_roundtrip [0] [0, 0] Sparse.empty 9 (by decide) (by decide)

/-- Unsetting a bit whose word key is absent is a no-op on a `Sparse` set. -/
theorem sparse_unset_absent (s : Sparse) (i : Nat)
    (hs : s (i >>> wordShift) = none) : Sparse.Unset s i = s := by
  unfold Sparse.Unset
  rw [hs]

/-- Unset deletes the entry when the stored word loses its last set bit. -/
theorem sparse_unset_delete (s : Sparse) (i word : Nat)
    (hs : s (i >>> wordShift) = some word)
    (h2 : word &&& (uintptrMask ^^^ 1 <<< (i &&& wordModMask)) = 0) :
    Sparse.Unset s i = fun k => if k = i >>> wordShift then none else s k := by
  unfold Sparse.Unset
  rw [hs]
  simp [h2]

/-- Unset stores the updated word back when it stays nonzero. -/
theorem sparse_unset_store (s : Sparse) (i word : Nat)
    (hs : s (i >>> wordShift) = some word)
    (h2 : word &&& (uintptrMask ^^^ 1 <<< (i &&& wordModMask)) ≠ 0) :
    Sparse.Unset s i =
      fun k => if k = i >>> wordShift then
          some (word &&& (uintptrMask ^^^ 1 <<< (i &&& wordModMask)))
        else s k := by
  unfold Sparse.Unset
  rw [hs]
  simp [h2]

/-- Distinct bit indexes differ in word index or in intra-word offset. -/
theorem idx_cases_w (i j : Nat) (hne : i ≠ j) :
    j >>> wordShift ≠ i >>> wordShift ∨ j &&& wordModMask ≠ i &&& wordModMask := by
  rw [wshift_eq, wshift_eq, wmask_eq, wmask_eq]
  omega

/-- Distinct bit indexes differ in byte index or in intra-byte offset. -/
theorem idx_cases_b (i j : Nat) (hne : i ≠ j) :
    j >>> byteShift ≠ i >>> byteShift ∨ j &&& byteModMask ≠ i &&& byteModMask := by
  rw [bshift_eq, bshift_eq, bmask_eq, bmask_eq]
  omega

/-- C6: on each variant, `Set i` and `Unset i` leave `Get j` unchanged for
every `j ≠ i` (stated for `i` addressable by the dense sets; `j` arbitrary,
which subsumes the addressable `j` of the claim). -/
theorem spec_C6_independence (w : Words) (s : Bytes) (sp : Sparse) (i j : Nat)
    (hne : i ≠ j)
    (hwi : i >>> wordShift < w.length) (hbi : i >>> byteShift < s.length) :
    ((Words.Set w i).bind (fun w2 => Words.Get w2 j) = Words.Get w j ∧
      (Words.Unset w i).bind (fun w2 => Words.Get w2 j) = Words.Get w j) ∧
    ((Bytes.Set s i).bind (fun s2 => Bytes.Get s2 j) = Bytes.Get s j ∧
      (Bytes.Unset s i).bind (fun s2 => Bytes.Get s2 j) = Bytes.Get s j) ∧
    (Sparse.Get (Sparse.Set sp i) j = Sparse.Get sp j ∧
      Sparse.Get (Sparse.Unset sp i) j = Sparse.Get sp j) := by
  refine ⟨⟨?_, ?_⟩, ⟨?_, ?_⟩, ?_, ?_⟩
  · rw [words_set_some w i hwi, Option.some_bind, words_get_eq, words_get_eq]
    rcases idx_cases_w i j hne with hk | hoff
    · rw [List.getElem?_set_ne hk.symm]
    · by_cases hk : j >>> wordShift = i >>> wordShift
      · rw [hk, List.getElem?_set_self hwi, List.getElem?_eq_getElem hwi]
        simp [testBit_or_shift_other _ _ _ hoff]
      · rw [List.getElem?_set_ne (fun h => hk h.symm)]
  · rw [words_unset_some w i hwi, Option.some_bind, words_get_eq, words_get_eq]
    rcases idx_cases_w i j hne with hk | hoff
    · rw [List.getElem?_set_ne hk.symm]
    · by_cases hk : j >>> wordShift = i >>> wordShift
      · rw [hk, List.getElem?_set_self hwi, List.getElem?_eq_getElem hwi]
        simp [testBit_andnot_other_w _ _ _ hoff (wmask_lt j)]
      · rw [List.getElem?_set_ne (fun h => hk h.symm)]
  · rw [bytes_set_some s i hbi, Option.some_bind, bytes_get_eq, bytes_get_eq]
    rcases idx_cases_b i j hne with hk | hoff
    · rw [List.getElem?_set_ne hk.symm]
    · by_cases hk : j >>> byteShift = i >>> byteShift
      · rw [hk, List.getElem?_set_self hbi, List.getElem?_eq_getElem hbi]
        simp [testBit_or_shift_other _ _ _ hoff]
      · rw [List.getElem?_set_ne (fun h => hk h.symm)]
  · rw [bytes_unset_some s i hbi, Option.some_bind, bytes_get_eq, bytes_get_eq]
    rcases idx_cases_b i j hne with hk | hoff
    · rw [List.getElem?_set_ne hk.symm]
    · by_cases hk : j >>> byteShift = i >>> byteShift
      · rw [hk, List.getElem?_set_self hbi, List.getElem?_eq_getElem hbi]
        simp [testBit_andnot_other_b _ _ _ hoff (bmask_lt j)]
      · rw [List.getElem?_set_ne (fun h => hk h.symm)]
  · rw [sparse_get_eq, sparse_get_eq]
    by_cases hk : j >>> wordShift = i >>> wordShift
    · have hoff : j &&& wordModMask ≠ i &&& wordModMask := by
        rcases idx_cases_w i j hne with h | h
        · exact absurd hk h
        · exact h
      simp [Sparse.Set, hk, testBit_or_shift_other _ _ _ hoff]
    · simp [Sparse.Set, hk]
  · rw [sparse_get_eq, sparse_get_eq]
    unfold Sparse.Unset
    cases hs : sp (i >>> wordShift) with
    | none => rfl
    | some word =>
        by_cases hk : j >>> wordShift = i >>> wordShift
        · have hoff : j &&& wordModMask ≠ i &&& wordModMask := by
            rcases idx_cases_w i j hne with h | h
            · exact absurd hk h
            · exact h
          by_cases h2 : word &&& (uintptrMask ^^^ 1 <<< (i &&& wordModMask)) = 0
          · have hwj : word.testBit (j &&& wordModMask) = false := by
              have h3 := testBit_andnot_other_w word (i &&& wordModMask)
                (j &&& wordModMask) hoff (wmask_lt j)
              rw [h2] at h3
              simpa using h3.symm
            simp [hs, h2, hk, hwj]
          · simp [hs, h2, hk, testBit_andnot_other_w _ _ _ hoff (wmask_lt j)]
        · by_cases h2 : word &&& (uintptrMask ^^^ 1 <<< (i &&& wordModMask)) = 0
          · simp [hs, h2, hk]
          · simp [hs, h2, hk]

/-- C6 witness at `w = [3]`, `s = [3]`, sparse `{0 ↦ 3}`, `i = 0`, `j = 1`. -/
theorem spec_C6_independence_witness :
    ((Words.Set [3] 0).bind (fun w2 => Words.Get w2 1) = Words.Get [3] 1 ∧
      (Words.Unset [3] 0).bind (fun w2 => Words.Get w2 1) = Words.Get [3] 1) ∧
    ((Bytes.Set [3] 0).bind (fun s2 => Bytes.Get s2 1) = Bytes.Get [3] 1 ∧
      (Bytes.Unset [3] 0).bind (fun s2 => Bytes.Get s2 1) = Bytes.Get [3] 1) ∧
    (Sparse.Get (Sparse.Set (Sparse.Set Sparse.empty 1) 0) 1 =
        Sparse.Get (Sparse.Set Sparse.empty 1) 1 ∧
      Sparse.Get (Sparse.Unset (Sparse.Set Sparse.empty 1) 0) 1 =
        Sparse.Get (Sparse.Set Sparse.empty 1) 1) :=
  spec_C6_independence [3] [3] (Sparse.Set Sparse.empty 1) 0 1 (by decide)
    (by decide) (by decide)

/-- C10: on each variant, `Set` and `Unset` are idempotent on addressable
indexes: a second application leaves the state exactly as after the first. -/
theorem spec_C10_idempotence (w : Words) (s : Bytes) (sp : Sparse) (i : Nat)
    (hw : i >>> wordShift < w.length) (hb : i >>> byteShift < s.length) :
    ((Words.Set w i).bind (fun w2 => Words.Set w2 i) = Words.Set w i ∧
      (Words.Unset w i).bind (fun w2 => Words.Unset w2 i) = Words.Unset w i) ∧
    ((Bytes.Set s i).bind (fun s2 => Bytes.Set s2 i) = Bytes.Set s i ∧
      (Bytes.Unset s i).bind (fun s2 => Bytes.Unset s2 i) = Bytes.Unset s i) ∧
    (Sparse.Set (Sparse.Set sp i) i = Sparse.Set sp i ∧
      Sparse.Unset (Sparse.Unset sp i) i = Sparse.Unset sp i) := by
  have hw2 : ∀ v : Nat, i >>> wordShift < (w.set (i >>> wordShift) v).length := by
    intro v; simpa using hw
  have hb2 : ∀ v : Nat, i >>> byteShift < (s.set (i >>> byteShift) v).length := by
    intro v; simpa using hb
  refine ⟨⟨?_, ?_⟩, ⟨?_, ?_⟩, ?_, ?_⟩
  · rw [words_set_some w i hw, Option.some_bind, words_set_some _ i (hw2 _)]
    rw [List.getElem_set_self (hw2 _), List.set_set, Nat.or_assoc, Nat.or_self]
  · rw [words_unset_some w i hw, Option.some_bind, words_unset_some _ i (hw2 _)]
    rw [List.getElem_set_self (hw2 _), List.set_set, Nat.and_assoc, Nat.and_self]
  · rw [bytes_set_some s i hb, Option.some_bind, bytes_set_some _ i (hb2 _)]
    rw [List.getElem_set_self (hb2 _), List.set_set, Nat.or_assoc, Nat.or_self]
  · rw [bytes_unset_some s i hb, Option.some_bind, bytes_unset_some _ i (hb2 _)]
    rw [List.getElem_set_self (hb2 _), List.set_set, Nat.and_assoc, Nat.and_self]
  · funext k
    by_cases hk : k = i >>> wordShift
    · simp [Sparse.Set, hk, Nat.or_assoc, Nat.or_self]
    · simp [Sparse.Set, hk]
  · cases hs : sp (i >>> wordShift) with
    | none =>
        rw [sparse_unset_absent sp i hs]
        exact sparse_unset_absent sp i hs
    | some word =>
        by_cases h2 : word &&& (uintptrMask ^^^ 1 <<< (i &&& wordModMask)) = 0
        · rw [sparse_unset_delete sp i word hs h2]
          apply sparse_unset_absent
          simp
        · rw [sparse_unset_store sp i word hs h2]
          have hs2 :
              (fun k => if k = i >>> wordShift then
                  some (word &&& (uintptrMask ^^^ 1 <<< (i &&& wordModMask)))
                else sp k) (i >>> wordShift) =
              some (word &&& (uintptrMask ^^^ 1 <<< (i &&& wordModMask))) := by simp
          have h2b :
              (word &&& (uintptrMask ^^^ 1 <<< (i &&& wordModMask))) &&&
                (uintptrMask ^^^ 1 <<< (i &&& wordModMask)) ≠ 0 := by
            rw [Nat.and_assoc, Nat.and_self]
            exact h2
          rw [sparse_unset_store _ i _ hs2 h2b]
          funext k
          by_cases hk : k = i >>> wordShift <;> simp [hk, Nat.and_assoc]

/-- C10 witness at `w = [5]`, `s = [5]`, sparse `{0 ↦ 5}`, `i = 0`. -/
theorem spec_C10_idempotence_witness :
    ((Words.Set [5] 0).bind (fun w2 => Words.Set w2 0) = Words.Set [5] 0 ∧
      (Words.Unset [5] 0).bind (fun w2 => Words.Unset w2 0) = Words.Unset [5] 0) ∧
    ((Bytes.Set [5] 0).bind (fun s2 => Bytes.Set s2 0) = Bytes.Set [5] 0 ∧
      (Bytes.Unset [5] 0).bind (fun s2 => Bytes.Unset s2 0) = Bytes.Unset [5] 0) ∧
    (Sparse.Set (Sparse.Set (Sparse.Set Sparse.empty 2) 0) 0 =
        Sparse.Set (Sparse.Set Sparse.empty 2) 0 ∧
      Sparse.Unset (Sparse.Unset (Sparse.Set Sparse.empty 2) 0) 0 =
        Sparse.Unset (Sparse.Set Sparse.empty 2) 0) :=
  spec_C10_idempotence [5] [5] (Sparse.Set Sparse.empty 2) 0 (by decide) (by decide)

/-- C8: a `Bytes` bitset stores bit `i` in byte `i / 8` at offset `i % 8`
least-significant-bit-first, and the capacity-8 set with bits 0 and 7 set has
backing storage equal to the single byte 129. -/
theorem spec_C8_byte_layout :
    (∀ (s : Bytes) (i : Nat),
      Bytes.Get s i = (s[i / 8]?).map (fun x => x.testBit (i % 8))) ∧
    (∀ (s : Bytes) (i : Nat),
      Bytes.Set s i = (s[i / 8]?).map (fun x => s.set (i / 8) (x ||| 2 ^ (i % 8)))) ∧
    (Bytes.Set (NewBytes 8) 0).bind (fun s => Bytes.Set s 7) = some [129] := by
  refine ⟨?_, ?_, by decide⟩
  · intro s i
    rw [bytes_get_eq, bshift_eq, bmask_eq]
  · intro s i
    unfold Bytes.Set
    rw [bshift_eq, bmask_eq, Nat.one_shiftLeft]
    cases h : s[i / 8]? <;> simp [h]

/-- C9: the sequence `Set 0`, `Set 7`, `Unset 0`, `Set 63` applied to a
`Words` set of capacity 64, a `Bytes` set of capacity 64 and an empty
`Sparse` set leaves the three in agreement on every index of `[0, 63]`:
exactly bits 7 and 63 read as set. -/
theorem spec_C9_cross_impl_agreement :
    ∀ j : Fin 64,
      ((((Words.Set (NewWords 64) 0).bind (fun w => Words.Set w 7)).bind
          (fun w => Words.Unset w 0)).bind (fun w => Words.Set w 63)).bind
        (fun w => Words.Get w j.val) =
          some (decide (j.val = 7) || decide (j.val = 63)) ∧
      ((((Bytes.Set (NewBytes 64) 0).bind (fun s => Bytes.Set s 7)).bind
          (fun s => Bytes.Unset s 0)).bind (fun s => Bytes.Set s 63)).bind
        (fun s => Bytes.Get s j.val) =
          some (decide (j.val = 7) || decide (j.val = 63)) ∧
      Sparse.Get
          (Sparse.Set (Sparse.Unset (Sparse.Set (Sparse.Set Sparse.empty 0) 7) 0) 63)
          j.val =
        (decide (j.val = 7) || decide (j.val = 63)) := by
  decide

/-- Grow (`int` variant) in the growing case appends exactly the missing
zero words. -/
theorem words_grow_append (w : Words) (m : Nat)
    (hlt : w.length < (m + wordModMask) >>> wordShift) :
    Words.Grow w m =
      w ++ List.replicate ((m + wordModMask) >>> wordShift - w.length) 0 := by
  simp only [Words.Grow]
  generalize ht : (m + wordModMask) >>> wordShift = t at hlt ⊢
  rw [if_pos (by constructor <;> omega)]
  rw [show ((t : Int) - w.length).toNat = t - w.length by omega]

/-- Grow (`int` variant) for `Bytes` in the growing case appends exactly the
missing zero bytes. -/
theorem bytes_grow_append (s : Bytes) (m : Nat)
    (hlt : s.length < (m + byteModMask) >>> byteShift) :
    Bytes.Grow s m =
      s ++ List.replicate ((m + byteModMask) >>> byteShift - s.length) 0 := by
  simp only [Bytes.Grow]
  generalize ht : (m + byteModMask) >>> byteShift = t at hlt ⊢
  rw [if_pos (by constructor <;> omega)]
  rw [show ((t : Int) - s.length).toNat = t - s.length by omega]

/-- C2: for a dense set and `m` exceeding the current capacity, `Grow m`
appends exactly the zero words/bytes needed to reach the rounded-up
capacity, every previously addressable bit keeps its value, and every new
bit below `m` reads as unset. -/
theorem spec_C2_grow_extends (w : Words) (s : Bytes) (m : Nat)
    (hwm : 64 * w.length < m) (hbm : 8 * s.length < m) :
    ((Words.Grow w m =
        w ++ List.replicate ((m + wordModMask) >>> wordShift - w.length) 0) ∧
      (∀ i, i >>> wordShift < w.length →
        Words.Get (Words.Grow w m) i = Words.Get w i) ∧
      (∀ i, 64 * w.length ≤ i → i < m →
        Words.Get (Words.Grow w m) i = some false)) ∧
    ((Bytes.Grow s m =
        s ++ List.replicate ((m + byteModMask) >>> byteShift - s.length) 0) ∧
      (∀ i, i >>> byteShift < s.length →
        Bytes.Get (Bytes.Grow s m) i = Bytes.Get s i) ∧
      (∀ i, 8 * s.length ≤ i → i < m →
        Bytes.Get (Bytes.Grow s m) i = some false)) := by
  have hwlt : w.length < (m + wordModMask) >>> wordShift := by
    rw [wshift_eq, wordModMask_eq]; omega
  have hblt : s.length < (m + byteModMask) >>> byteShift := by
    rw [bshift_eq, byteModMask]; omega
  refine ⟨⟨words_grow_append w m hwlt, ?_, ?_⟩,
    bytes_grow_append s m hblt, ?_, ?_⟩
  · intro i hi
    rw [words_grow_append w m hwlt, words_get_eq, words_get_eq,
      List.getElem?_append_left hi]
  · intro i h1 h2
    rw [words_grow_append w m hwlt, words_get_eq]
    have hk1 : w.length ≤ i >>> wordShift := by rw [wshift_eq]; omega
    have hk2 : i >>> wordShift - w.length <
        (m + wordModMask) >>> wordShift - w.length := by
      rw [wshift_eq, wshift_eq, wordModMask_eq]; omega
    rw [List.getElem?_append_right hk1]
    rw [List.getElem?_replicate_of_lt hk2]
    simp
  · intro i hi
    rw [bytes_grow_append s m hblt, bytes_get_eq, bytes_get_eq,
      List.getElem?_append_left hi]
  · intro i h1 h2
    rw [bytes_grow_append s m hblt, bytes_get_eq]
    have hk1 : s.length ≤ i >>> byteShift := by rw [bshift_eq]; omega
    have hk2 : i >>> byteShift - s.length <
        (m + byteModMask) >>> byteShift - s.length := by
      rw [bshift_eq, bshift_eq, byteModMask]; omega
    rw [List.getElem?_append_right hk1]
    rw [List.getElem?_replicate_of_lt hk2]
    simp

/-- C2 witness at `w = [3]`, `s = [3]`, `m = 100`. -/
theorem spec_C2_grow_extends_witness :
    ((Words.Grow [3] 100 =
        [3] ++ List.replicate ((100 + wordModMask) >>> wordShift - 1) 0) ∧
      (∀ i, i >>> wordShift < 1 →
        Words.Get (Words.Grow [3] 100) i = Words.Get [3] i) ∧
      (∀ i, 64 * 1 ≤ i → i < 100 →
        Words.Get (Words.Grow [3] 100) i = some false)) ∧
    ((Bytes.Grow [3] 100 =
        [3] ++ List.replicate ((100 + byteModMask) >>> byteShift - 1) 0) ∧
      (∀ i, i >>> byteShift < 1 →
        Bytes.Get (Bytes.Grow [3] 100) i = Bytes.Get [3] i) ∧
      (∀ i, 8 * 1 ≤ i → i < 100 →
        Bytes.Get (Bytes.Grow [3] 100) i = some false)) :=
  spec_C2_grow_extends [3] [3] 100 (by decide) (by decide)

/-- Grow (`int` variant) is a no-op when the current length already covers
the rounded-up capacity. -/
theorem words_grow_noop (w : Words) (m : Nat)
    (h : (m + wordModMask) >>> wordShift ≤ w.length) : Words.Grow w m = w := by
  simp only [Words.Grow]
  generalize ht : (m + wordModMask) >>> wordShift = t at h
  rw [if_neg (by omega)]

/-- Grow (`int` variant) for `Bytes` is a no-op when the current length
already covers the rounded-up capacity. -/
theorem bytes_grow_noop (s : Bytes) (m : Nat)
    (h : (m + byteModMask) >>> byteShift ≤ s.length) : Bytes.Grow s m = s := by
  simp only [Bytes.Grow]
  generalize ht : (m + byteModMask) >>> byteShift = t at h
  rw [if_neg (by omega)]

/-- C1: the `int` variant of `Grow` is indeed a no-op when the rounded
capacity is already reached, but the `uint` variant is not: on a `Words` of
2 words (capacity 128 bits), `Grow 8` computes the wrapped missing count
`2 ^ 64 - 1` and `make` faults (`none`) instead of leaving the set
unchanged, so the claim fails on the `uint` variant of the code. -/
theorem spec_C1_growu_not_noop :
    Words.GrowU [0, 0] 8 = none ∧ Words.Grow [0, 0] 8 = [0, 0] := by
  decide

/-- C4: on the dense variants, every operation whose computed word/byte
index falls outside the backing storage faults (`none`); in particular `Get`
faults rather than returning `some false`. -/
theorem spec_C4_oob_faults (w : Words) (s : Bytes) (i j : Nat)
    (hw : w.length ≤ i >>> wordShift) (hb : s.length ≤ j >>> byteShift) :
    (Words.Get w i = none ∧ Words.Set w i = none ∧ Words.Unset w i = none ∧
      ∀ b, Words.SetBool w i b = none) ∧
    (Bytes.Get s j = none ∧ Bytes.Set s j = none ∧ Bytes.Unset s j = none ∧
      ∀ b, Bytes.SetBool s j b = none) := by
  have hw0 : w[i >>> wordShift]? = none := List.getElem?_eq_none hw
  have hb0 : s[j >>> byteShift]? = none := List.getElem?_eq_none hb
  refine ⟨⟨?_, ?_, ?_, ?_⟩, ?_, ?_, ?_, ?_⟩
  · unfold Words.Get; rw [hw0]
  · unfold Words.Set; rw [hw0]
  · unfold Words.Unset; rw [hw0]
  · intro b
    cases b <;> unfold Words.SetBool <;> simp
    · unfold Words.Unset; rw [hw0]
    · unfold Words.Set; rw [hw0]
  · unfold Bytes.Get; rw [hb0]
  · unfold Bytes.Set; rw [hb0]
  · unfold Bytes.Unset; rw [hb0]
  · intro b
    cases b <;> unfold Bytes.SetBool <;> simp
    · unfold Bytes.Unset; rw [hb0]
    · unfold Bytes.Set; rw [hb0]

/-- C4 witness: the empty `Words` at index 0 and a 1-byte `Bytes` at
index 8. -/
theorem spec_C4_oob_faults_witness :
    (Words.Get [] 0 = none ∧ Words.Set [] 0 = none ∧ Words.Unset [] 0 = none ∧
      ∀ b, Words.SetBool [] 0 b = none) ∧
    (Bytes.Get [0] 8 = none ∧ Bytes.Set [0] 8 = none ∧ Bytes.Unset [0] 8 = none ∧
      ∀ b, Bytes.SetBool [0] 8 b = none) :=
  spec_C4_oob_faults [] [0] 0 8 (by decide) (by decide)

/-- Invariant of the `Sparse` representation: every stored word is nonzero
(a key is present exactly when its word value is nonzero). -/
def Sparse.Inv (s : Sparse) : Prop := ∀ k v, s k = some v → v ≠ 0

/-- C3: the nonzero-word invariant holds for the empty map and is preserved
by `Set`, `Unset` and `SetBool` (`Get` does not modify the map at all in
this embedding, so it preserves it trivially); moreover `Unset` deletes the
entry when the word's last set bit is cleared, and `Unset` on an absent
word leaves the map unchanged. -/
theorem spec_C3_sparse_invariant (s : Sparse) (i : Nat) (b : Bool)
    (hs : Sparse.Inv s) :
    Sparse.Inv Sparse.empty ∧
    Sparse.Inv (Sparse.Set s i) ∧
    Sparse.Inv (Sparse.Unset s i) ∧
    Sparse.Inv (Sparse.SetBool s i b) ∧
    (∀ word, s (i >>> wordShift) = some word →
      word &&& (uintptrMask ^^^ 1 <<< (i &&& wordModMask)) = 0 →
      Sparse.Unset s i (i >>> wordShift) = none) ∧
    (s (i >>> wordShift) = none → Sparse.Unset s i = s) := by
  have hset : Sparse.Inv (Sparse.Set s i) := by
    intro k v h
    unfold Sparse.Set at h
    by_cases hk : k = i >>> wordShift
    · rw [if_pos hk] at h
      intro h0
      have htb : v.testBit (i &&& wordModMask) = true := by
        cases h
        exact testBit_or_shift_self _ _
      rw [h0] at htb
      simp at htb
    · rw [if_neg hk] at h
      exact hs k v h
  have hunset : Sparse.Inv (Sparse.Unset s i) := by
    cases hps : s (i >>> wordShift) with
    | none => rw [sparse_unset_absent s i hps]; exact hs
    | some word =>
        by_cases h2 : word &&& (uintptrMask ^^^ 1 <<< (i &&& wordModMask)) = 0
        · rw [sparse_unset_delete s i word hps h2]
          intro k v h
          by_cases hk : k = i >>> wordShift
          · simp [hk] at h
          · simp only [hk, if_false] at h
            exact hs k v h
        · rw [sparse_unset_store s i word hps h2]
          intro k v h
          by_cases hk : k = i >>> wordShift
          · simp [hk] at h
            subst h
            exact h2
          · simp only [hk, if_false] at h
            exact hs k v h
  refine ⟨?_, hset, hunset, ?_, ?_, sparse_unset_absent s i⟩
  · intro k v h
    simp [Sparse.empty] at h
  · cases b <;> simpa [Sparse.SetBool]
  · intro word hps h2
    rw [sparse_unset_delete s i word hps h2]
    simp

/-- C3 witness at the sparse set `{0 ↦ 1}` (obtained by `Set 0`), `i = 0`,
`b = false`. -/
theorem spec_C3_sparse_invariant_witness :
    Sparse.Inv Sparse.empty ∧
    Sparse.Inv (Sparse.Set (Sparse.Set Sparse.empty 0) 0) ∧
    Sparse.Inv (Sparse.Unset (Sparse.Set Sparse.empty 0) 0) ∧
    Sparse.Inv (Sparse.SetBool (Sparse.Set Sparse.empty 0) 0 false) ∧
    (∀ word, (Sparse.Set Sparse.empty 0) (0 >>> wordShift) = some word →
      word &&& (uintptrMask ^^^ 1 <<< (0 &&& wordModMask)) = 0 →
      Sparse.Unset (Sparse.Set Sparse.empty 0) 0 (0 >>> wordShift) = none) ∧
    ((Sparse.Set Sparse.empty 0) (0 >>> wordShift) = none →
      Sparse.Unset (Sparse.Set Sparse.empty 0) 0 = Sparse.Set Sparse.empty 0) :=
  spec_C3_sparse_invariant (Sparse.Set Sparse.empty 0) 0 false
    (fun k v h => by
      unfold Sparse.Set Sparse.empty at h
      by_cases hk : k = 0 >>> wordShift
      · rw [if_pos hk] at h
        cases h
        decide
      · rw [if_neg hk] at h
        cases h)

end Bitset
